import Mathlib

/-!
# Verification of the `evstream` SSE library core

Shallow embedding of the evstream source (message encoder, stream manager,
reactive state, state manager, Redis pub/sub bridge) together with proofs
settling the frozen claims about the specification.

Conventions:
* JS `Map` and `Set` objects are embedded as association lists
  (`List (key × value)`) and insertion-ordered duplicate-free lists,
  with helper operations `getA`/`setA`/`eraseA` mirroring
  `Map.get`/`Map.set`/`Map.delete`.
* Functions that can `throw` in JS return a `× Option EvError` (the thrown
  error) or `Except`; mutations performed before a throw are kept in the
  returned state, as they are in JS.
* `lodash.isEqual` (deep structural equality) is embedded as decidable
  equality on the embedded value types.
-/

namespace Evstream

/-- Embeds the `data: string | object` union of `EvMessage` (types.ts).
`str` is a JS string, `obj` a plain serializable object with string-valued
fields (in insertion order), `badObj` an object on which `JSON.stringify`
throws, and `other` a value that is neither a string nor an object
(`typeof` is neither `'string'` nor `'object'`). -/
inductive EvData where
  | str (s : String)
  | obj (fields : List (String × String))
  | badObj
  | other
deriving DecidableEq, Repr

/-- Embeds the `EvMessage` interface (types.ts): optional event name,
data payload, optional id.  `event := some ""` models a present-but-empty
(hence falsy) event string, `none` an absent one; likewise for `id`. -/
structure EvMessage where
  event : Option String := none
  data : EvData
  id : Option String := none
deriving DecidableEq, Repr

/-- Serialization of a plain object by `JSON.stringify` (canonical
single-line encoding, fields in insertion order). -/
def serializeObj (fields : List (String × String)) : String :=
  "\x7b" ++ String.intercalate ","
    (fields.map fun p => "\"" ++ p.1 ++ "\":\"" ++ p.2 ++ "\"") ++ "\x7d"

/-- Embeds `safeJsonParse` (utils.ts): a string is returned verbatim, an
object is `JSON.stringify`-ed with a thrown serialization error mapped to
`""`, and any other value yields `""`. -/
def safeJsonParse : EvData → String
  | .str s => s
  | .obj fields => serializeObj fields
  | .badObj => ""
  | .other => ""

/-- Embeds the JS truthiness default `x || d` for an optional string
(absent or empty string falls back to the default). -/
def strOrDefault (x : Option String) (d : String) : String :=
  match x with
  | none => d
  | some s => if s = "" then d else s

/-- Embeds `message` (message.ts): the event-stream encoder.  Note that
the local `data` holds the full `"data:" ++ serialized ++ "\n"` chunk, and
the emptiness test compares that chunk — not the serialized payload — to
`""`, exactly as in the source. -/
def message (msg : EvMessage) : String :=
  let event := "event:" ++ strOrDefault msg.event "message" ++ "\n"
  let data := "data:" ++ safeJsonParse msg.data ++ "\n"
  let idPart :=
    match msg.id with
    | none => ""
    | some i => if i = "" then "" else "id:" ++ i ++ "\n"
  if data = "" then idPart ++ event ++ "\n"
  else idPart ++ event ++ data ++ "\n"

/-- The encoder as the claim words it: when the serialized data is empty
the `data:` line is omitted; otherwise it is emitted.  Used only to state
the refinement comparison for claim C3. -/
def messageClaimed (msg : EvMessage) : String :=
  let event := "event:" ++ strOrDefault msg.event "message" ++ "\n"
  let ser := safeJsonParse msg.data
  let idPart :=
    match msg.id with
    | none => ""
    | some i => if i = "" then "" else "id:" ++ i ++ "\n"
  if ser = "" then idPart ++ event ++ "\n"
  else idPart ++ event ++ "data:" ++ ser ++ "\n" ++ "\n"

/-- The `"data:" ++ s ++ "\n"` chunk is never the empty string, so the
omission branch of `message` is dead code. -/
theorem dataChunk_ne_empty (s : String) : ("data:" ++ s ++ "\n" : String) ≠ "" := by
  intro h
  have h2 := congrArg String.length h
  simp [String.length_append] at h2
  exact absurd h2.1.1 (by decide)

/-- Claim C3 (counterexample): for the message `{event: "heartbeat",
data: ""}` — the exact message the heartbeat timer sends — the serialized
data is empty, yet the encoder still emits a `data:` line (`data:\n`),
contrary to the claim that the `data:` line is omitted. -/
theorem message_emptyData_counterexample :
    message { event := some "heartbeat", data := .str "" } =
      "event:heartbeat\ndata:\n\n" ∧
    message { event := some "heartbeat", data := .str "" } ≠
      messageClaimed { event := some "heartbeat", data := .str "" } := by
  constructor
  · rfl
  · decide

/-- Claim C3 (amended): the encoder always emits the `data:` line — for
empty serialized data it emits a bare `data:` followed by the blank line;
the branch meant to omit it compares the whole `data:...\n` chunk to `""`
and never fires.  For non-empty serialized data the output is the optional
`id:` line, the `event:` line, `data:<serialized>`, then a blank line, as
the claim states. -/
theorem message_eq_always_data (msg : EvMessage) :
    message msg =
      (match msg.id with
        | none => ""
        | some i => if i = "" then "" else "id:" ++ i ++ "\n") ++
      ("event:" ++ strOrDefault msg.event "message" ++ "\n") ++
      ("data:" ++ safeJsonParse msg.data ++ "\n") ++ "\n" := by
  unfold message
  simp only [if_neg (dataChunk_ne_empty (safeJsonParse msg.data))]

/-! ## Association-list embedding of JS `Map` -/

section AList

variable {α : Type} {β : Type} [DecidableEq α]

/-- Embedding of `Map.get`: the value stored at `k`, if any. -/
def getA : List (α × β) → α → Option β
  | [], _ => none
  | (k', v') :: t, k => if k' = k then some v' else getA t k

/-- Embedding of `Map.set`: replaces the entry at `k`, or appends a new
entry (JS `Map` keeps insertion order). -/
def setA : List (α × β) → α → β → List (α × β)
  | [], k, v => [(k, v)]
  | (k', v') :: t, k, v =>
      if k' = k then (k, v) :: t else (k', v') :: setA t k v

/-- Embedding of `Map.delete`: removes the entry at `k`, if any. -/
def eraseA : List (α × β) → α → List (α × β)
  | [], _ => []
  | (k', v') :: t, k => if k' = k then t else (k', v') :: eraseA t k

theorem getA_setA_self (l : List (α × β)) (k : α) (v : β) :
    getA (setA l k v) k = some v := by
  induction l with
  | nil => simp [setA, getA]
  | cons h t ih =>
      by_cases hk : h.1 = k <;> simp [setA, getA, hk, ih]

theorem getA_setA_ne (l : List (α × β)) {k k' : α} (v : β) (h : k' ≠ k) :
    getA (setA l k v) k' = getA l k' := by
  have hne : ¬k = k' := fun hh => h hh.symm
  induction l with
  | nil => simp [setA, getA, hne]
  | cons hd t ih =>
      obtain ⟨a, b⟩ := hd
      by_cases hk : a = k
      · subst hk
        simp [setA, getA, hne]
      · simp [setA, getA, hk, ih]

theorem getA_eraseA_ne (l : List (α × β)) {k k' : α} (h : k' ≠ k) :
    getA (eraseA l k) k' = getA l k' := by
  induction l with
  | nil => simp [eraseA, getA]
  | cons hd t ih =>
      obtain ⟨a, b⟩ := hd
      by_cases hk : a = k
      · subst hk
        have he : eraseA ((a, b) :: t) a = t := by simp [eraseA]
        rw [he]
        simp only [getA]
        rw [if_neg (fun hh => h hh.symm)]
      · simp [eraseA, getA, hk, ih]

theorem keys_setA_of_mem (l : List (α × β)) (k : α) (v : β)
    (h : (getA l k).isSome) :
    (setA l k v).map Prod.fst = l.map Prod.fst := by
  induction l with
  | nil => simp [getA] at h
  | cons hd t ih =>
      by_cases hk : hd.1 = k
      · simp [setA, hk]
      · simp [getA, hk] at h
        simp [setA, hk, ih h]

theorem keys_setA_of_not_mem (l : List (α × β)) (k : α) (v : β)
    (h : getA l k = none) :
    (setA l k v).map Prod.fst = l.map Prod.fst ++ [k] := by
  induction l with
  | nil => simp [setA]
  | cons hd t ih =>
      by_cases hk : hd.1 = k
      · simp [getA, hk] at h
      · simp [getA, hk] at h
        simp [setA, hk, ih h]

theorem getA_eq_none_of_not_mem_keys (l : List (α × β)) (k : α)
    (h : k ∉ l.map Prod.fst) : getA l k = none := by
  induction l with
  | nil => rfl
  | cons hd t ih =>
      obtain ⟨a, b⟩ := hd
      simp only [List.map_cons, List.mem_cons, not_or] at h
      simp only [getA]
      rw [if_neg (fun hh => h.1 hh.symm)]
      exact ih h.2

theorem mem_keys_of_getA_isSome (l : List (α × β)) (k : α)
    (h : (getA l k).isSome) : k ∈ l.map Prod.fst := by
  induction l with
  | nil => simp [getA] at h
  | cons hd t ih =>
      by_cases hk : hd.1 = k
      · simp [hk]
      · simp [getA, hk] at h
        simp [ih h]

theorem keys_eraseA_sublist (l : List (α × β)) (k : α) :
    ((eraseA l k).map Prod.fst).Sublist (l.map Prod.fst) := by
  induction l with
  | nil => simp [eraseA]
  | cons hd t ih =>
      by_cases hk : hd.1 = k
      · simp only [eraseA, if_pos hk]
        exact List.sublist_cons_self _ _
      · simpa [eraseA, hk] using ih.cons₂ hd.1

theorem getA_eraseA_self (l : List (α × β)) (k : α)
    (h : (l.map Prod.fst).Nodup) : getA (eraseA l k) k = none := by
  induction l with
  | nil => rfl
  | cons hd t ih =>
      obtain ⟨a, b⟩ := hd
      simp only [List.map_cons, List.nodup_cons] at h
      by_cases hk : a = k
      · subst hk
        simp only [eraseA, if_pos rfl]
        exact getA_eq_none_of_not_mem_keys _ _ h.1
      · simp only [eraseA, if_neg hk, getA]
        exact ih h.2

theorem mem_setA (l : List (α × β)) (k : α) (v : β) {p : α × β}
    (h : p ∈ setA l k v) : p = (k, v) ∨ p ∈ l := by
  induction l with
  | nil => simp [setA] at h; simp [h]
  | cons hd t ih =>
      by_cases hk : hd.1 = k
      · simp [setA, hk] at h
        rcases h with h | h
        · simp [h]
        · exact Or.inr (List.mem_cons_of_mem _ h)
      · simp [setA, hk] at h
        rcases h with h | h
        · exact Or.inr (by simp [h])
        · rcases ih h with h2 | h2
          · exact Or.inl h2
          · exact Or.inr (List.mem_cons_of_mem _ h2)

theorem mem_eraseA (l : List (α × β)) (k : α) {p : α × β}
    (h : p ∈ eraseA l k) : p ∈ l := by
  induction l with
  | nil => simp [eraseA] at h
  | cons hd t ih =>
      by_cases hk : hd.1 = k
      · simp [eraseA, hk] at h
        exact List.mem_cons_of_mem _ h
      · simp [eraseA, hk] at h
        rcases h with h | h
        · simp [h]
        · exact List.mem_cons_of_mem _ (ih h)

theorem getA_append_right (l : List (α × β)) (x : α × β) (k : α)
    (h : getA l k = none) :
    getA (l ++ [x]) k = if x.1 = k then some x.2 else none := by
  induction l with
  | nil => simp [getA]
  | cons hd t ih =>
      by_cases hk : hd.1 = k
      · simp [getA, hk] at h
      · simp [getA, hk] at h ⊢
        exact ih h

theorem getA_append_left (l : List (α × β)) (x : α × β) (k : α) (v : β)
    (h : getA l k = some v) : getA (l ++ [x]) k = some v := by
  induction l with
  | nil => simp [getA] at h
  | cons hd t ih =>
      by_cases hk : hd.1 = k
      · simp [getA, hk] at h ⊢; exact h
      · simp [getA, hk] at h ⊢; exact ih h

end AList

/-! ## The stream manager (manager.ts, `EvStreamManager`)

Clients are identified by the ids produced by `uid` (utils.ts); `uid`
combines a time prefix, a random suffix and a counter to guarantee
uniqueness, which the model reflects by drawing ids from a monotonically
increasing `nextUid` counter.  A client's SSE sink is abstracted to the
list of broadcast messages written to it. -/

/-- Errors thrown by the manager (errors.ts): `EvMaxConnectionsError`
carries the connection limit, `EvMaxListenerError` carries the size of
the listener set at the time of the throw and the channel name. -/
inductive EvError where
  | maxConnections (connections : Nat)
  | maxListener (listeners : Nat) (channel : String)
deriving DecidableEq, Repr

/-- The `data` field of a broadcast write, after `sendLocal` wraps it:
`ofStr` embeds `{ ch: name, data: msg }` (produced when the original
`data` was a string — note the whole original message object is nested
under `data`), `ofObj` embeds `{ ch: name, ...msg.data }` for an object
payload, and `ofOther` the spread of a non-object payload, which
contributes no fields beyond `ch`. -/
inductive WireData where
  | ofStr (ch : String) (m : EvMessage)
  | ofObj (ch : String) (fields : List (String × String))
  | ofOther (ch : String) (d : EvData)
deriving DecidableEq, Repr

/-- A message as written to a client sink by `sendLocal`: the original
message with its `data` replaced by the channel-tagged wrapping. -/
structure WireMsg where
  event : Option String
  data : WireData
  id : Option String
deriving DecidableEq, Repr

/-- The wrapping `sendLocal` applies before writing:
`{ ...msg, data: typeof msg.data === 'string' ? { ch: name, data: msg } :
{ ch: name, ...msg.data } }`. -/
def wrapMsg (name : String) (m : EvMessage) : WireMsg :=
  { event := m.event, id := m.id,
    data :=
      match m.data with
      | .str s => .ofStr name ⟨m.event, .str s, m.id⟩
      | .obj fields => .ofObj name fields
      | d => .ofOther name d }

/-- The per-stream closure state of `createStream`: the `channels` array
the handle pushes every listened channel onto, plus the sink writes. A
client present in the manager's `clients` map has `isClosed = false`;
`close` deletes it from the map. -/
structure ClientConn where
  channels : List String
  writes : List WireMsg
deriving DecidableEq, Repr

/-- The state of an `EvStreamManager`: `#clients`, `#listeners`,
`#count`, the two limits, the fresh-id source, and the optional Redis
pub/sub relay (`#pubSub`), whose outgoing `send` calls are recorded in
`pubOutbox`. -/
structure ManagerState where
  clients : List (Nat × ClientConn)
  listeners : List (String × List Nat)
  count : Nat
  maxConnections : Nat
  maxListeners : Nat
  nextUid : Nat
  hasPubSub : Bool
  pubOutbox : List (String × EvMessage)
deriving DecidableEq, Repr

/-- Embeds the JS default `opts?.x || 5000` (absent or `0` is falsy). -/
def natOrDefault (x : Option Nat) (d : Nat) : Nat :=
  match x with
  | none => d
  | some 0 => d
  | some n => n

/-- Embeds the `EvStreamManager` constructor. -/
def mkManager (maxConnection maxListeners : Option Nat) (pubSub : Bool) :
    ManagerState :=
  { clients := [], listeners := [], count := 0,
    maxConnections := natOrDefault maxConnection 5000,
    maxListeners := natOrDefault maxListeners 5000,
    nextUid := 0, hasPubSub := pubSub, pubOutbox := [] }

/-- Embeds `EvStreamManager.#listen`: gets or creates the channel's
`Set`, throws `EvMaxListenerError` when the set is already at the
listener limit (the freshly created empty set stays in the map, as it
does in JS), and otherwise adds the id (`Set.add` is a no-op on a
duplicate). -/
def listenCore (s : ManagerState) (name : String) (id : Nat) :
    ManagerState × Option EvError :=
  let cur := getA s.listeners name
  let s1 := match cur with
    | none => { s with listeners := setA s.listeners name [] }
    | some _ => s
  let set := match cur with
    | none => ([] : List Nat)
    | some set => set
  if set.length ≥ s.maxListeners then
    (s1, some (.maxListener set.length name))
  else
    let newSet := if id ∈ set then set else set ++ [id]
    ({ s1 with listeners := setA s1.listeners name newSet }, none)

/-- Embeds the stream handle's `listen`: a closed handle is a no-op;
otherwise the channel name is pushed onto the handle's `channels` array
and `#listen` runs (so the push survives even when `#listen` throws,
exactly as in the source). -/
def listen (s : ManagerState) (id : Nat) (name : String) :
    ManagerState × Option EvError :=
  match getA s.clients id with
  | none => (s, none)
  | some conn =>
      let conn1 := { conn with channels := conn.channels ++ [name] }
      let s1 := { s with clients := setA s.clients id conn1 }
      listenCore s1 name id

/-- Embeds `EvStreamManager.#unlisten`: removes the id from the channel's
set and deletes the channel entry when the set becomes empty. -/
def unlisten (s : ManagerState) (name : String) (id : Nat) : ManagerState :=
  match getA s.listeners name with
  | none => s
  | some set =>
      let set' := set.filter (· ≠ id)
      if set'.length = 0 then { s with listeners := eraseA s.listeners name }
      else { s with listeners := setA s.listeners name set' }

/-- Embeds the stream handle's `close`: a second close is a no-op;
otherwise the count drops, the id is unsubscribed from every channel the
handle pushed onto its `channels` array, and the client is deleted from
the registry. -/
def closeStream (s : ManagerState) (id : Nat) : ManagerState :=
  match getA s.clients id with
  | none => s
  | some conn =>
      let s1 := { s with count := s.count - 1 }
      let s2 := conn.channels.foldl (fun st ch => unlisten st ch id) s1
      { s2 with clients := eraseA s2.clients id }

/-- Embeds `EvStreamManager.createStream`: throws
`EvMaxConnectionsError` at the connection limit (before any mutation),
otherwise registers a fresh client and returns its id. -/
def createStream (s : ManagerState) :
    ManagerState × Option Nat × Option EvError :=
  if s.count ≥ s.maxConnections then
    (s, none, some (.maxConnections s.maxConnections))
  else
    ({ s with
        clients := s.clients ++ [(s.nextUid, ⟨[], []⟩)],
        count := s.count + 1,
        nextUid := s.nextUid + 1 },
      some s.nextUid, none)

/-- The loop body of `sendLocal`: looks up the client for one listed id
(skipping it silently when it is gone — `if (!client) continue`) and
writes the wrapped message to its sink. -/
def writeStep (name : String) (msg : EvMessage) (st : ManagerState)
    (id : Nat) : ManagerState :=
  match getA st.clients id with
  | none => st
  | some conn =>
      let conn1 := { conn with writes := conn.writes ++ [wrapMsg name msg] }
      { st with clients := setA st.clients id conn1 }

/-- Embeds `EvStreamManager.sendLocal`: an unknown channel returns the
message untouched (`if (!listeners) return msg`); otherwise the wrapped
message is written to each listed client that is still registered. -/
def sendLocal (s : ManagerState) (name : String) (msg : EvMessage) :
    ManagerState :=
  match getA s.listeners name with
  | none => s
  | some set => set.foldl (writeStep name msg) s

/-- Embeds `EvStreamManager.send`: local fan-out, then the optional
Redis pub/sub relay of the original (unwrapped) message. -/
def send (s : ManagerState) (name : String) (msg : EvMessage) : ManagerState :=
  let s1 := sendLocal s name msg
  if s1.hasPubSub then { s1 with pubOutbox := s1.pubOutbox ++ [(name, msg)] }
  else s1

/-- One external operation on a manager: creating a stream, a handle
subscribing to a channel, a handle (or the transport close event)
closing, or a broadcast. -/
inductive MOp where
  | create
  | listen (id : Nat) (name : String)
  | close (id : Nat)
  | send (name : String) (msg : EvMessage)
deriving DecidableEq, Repr

/-- Applies one operation, discarding thrown errors (the caller catches
them; all mutations performed before the throw are kept). -/
def step (s : ManagerState) (op : MOp) : ManagerState :=
  match op with
  | .create => (createStream s).1
  | .listen id name => (listen s id name).1
  | .close id => closeStream s id
  | .send name msg => send s name msg

/-- Runs a sequence of operations from a given manager state. -/
def run (s : ManagerState) (ops : List MOp) : ManagerState :=
  ops.foldl step s

/-! ## Claim C1: the listener limit -/

/-- Successive `#listen` subscriptions of the given ids to one channel,
returning the final state and the outcome (`none` = success) of each
call in order. -/
def subscribeSeq (s : ManagerState) (name : String) :
    List Nat → ManagerState × List (Option EvError)
  | [] => (s, [])
  | id :: rest =>
      let r := listenCore s name id
      let rr := subscribeSeq r.1 name rest
      (rr.1, r.2 :: rr.2)

theorem setA_setA {α β : Type} [DecidableEq α] (l : List (α × β)) (k : α)
    (v w : β) : setA (setA l k v) k w = setA l k w := by
  induction l with
  | nil => simp [setA]
  | cons hd t ih =>
      by_cases hk : hd.1 = k
      · simp [setA, hk]
      · simp [setA, hk, ih]

/-- One `#listen` call on a channel whose set already exists, has no
duplicate of the id, and is strictly below the limit: it succeeds and
appends the id. -/
theorem listenCore_ok (s : ManagerState) (name : String) (id : Nat)
    (cur : List Nat) (hcur : getA s.listeners name = some cur)
    (hid : id ∉ cur) (hlt : cur.length < s.maxListeners) :
    listenCore s name id =
      ({ s with listeners := setA s.listeners name (cur ++ [id]) }, none) := by
  unfold listenCore
  simp only [hcur]
  rw [if_neg (by omega)]
  simp [hid]

/-- One `#listen` call on a fresh channel with a positive limit: the
empty set is created and the id added. -/
theorem listenCore_fresh (s : ManagerState) (name : String) (id : Nat)
    (hcur : getA s.listeners name = none) (hmax : 1 ≤ s.maxListeners) :
    listenCore s name id =
      ({ s with listeners := setA s.listeners name [id] }, none) := by
  unfold listenCore
  simp only [hcur]
  rw [if_neg (by simp; omega)]
  simp [setA_setA]

/-- One `#listen` call on a channel whose set is at (or beyond) the
limit throws `EvMaxListenerError` carrying the set size and the channel
name, regardless of the id. -/
theorem listenCore_full (s : ManagerState) (name : String) (id : Nat)
    (cur : List Nat) (hcur : getA s.listeners name = some cur)
    (hge : s.maxListeners ≤ cur.length) :
    listenCore s name id = (s, some (.maxListener cur.length name)) := by
  unfold listenCore
  simp only [hcur]
  rw [if_pos (by omega)]

/-- Subscribing a block of distinct fresh ids onto an existing set that
has room for all of them: every call succeeds and the ids are appended
in order. -/
theorem subscribeSeq_ok (name : String) :
    ∀ (ids : List Nat) (s : ManagerState) (cur : List Nat),
      getA s.listeners name = some cur →
      (∀ i ∈ ids, i ∉ cur) → ids.Nodup →
      cur.length + ids.length ≤ s.maxListeners →
      (subscribeSeq s name ids).2 = List.replicate ids.length none ∧
      getA (subscribeSeq s name ids).1.listeners name = some (cur ++ ids) ∧
      (subscribeSeq s name ids).1.maxListeners = s.maxListeners := by
  intro ids
  induction ids with
  | nil =>
      intro s cur hcur _ _ _
      simp [subscribeSeq, hcur]
  | cons id rest ih =>
      intro s cur hcur hfresh hnodup hlen
      simp only [List.nodup_cons] at hnodup
      have hid : id ∉ cur := hfresh id (by simp)
      have hlt : cur.length < s.maxListeners := by
        simp [List.length_cons] at hlen; omega
      have hstep := listenCore_ok s name id cur hcur hid hlt
      have hget2 : getA (setA s.listeners name (cur ++ [id])) name =
          some (cur ++ [id]) := getA_setA_self _ _ _
      have hrest := ih { s with listeners := setA s.listeners name (cur ++ [id]) }
        (cur ++ [id])
        hget2
        (by
          intro i hi
          simp only [List.mem_append, List.mem_singleton]
          rintro (h | h)
          · exact hfresh i (by simp [hi]) h
          · exact hnodup.1 (h ▸ hi))
        hnodup.2
        (by simp [List.length_append]; simp [List.length_cons] at hlen; omega)
      refine ⟨?_, ?_, ?_⟩
      · simp only [subscribeSeq, hstep]
        simp [hrest.1, List.replicate_succ]
      · simp only [subscribeSeq, hstep]
        simpa [List.append_assoc] using hrest.2.1
      · simp only [subscribeSeq, hstep]
        exact hrest.2.2

/-- Claim C1 (counterexample): the claim quantifies over every
`L ≤ maxListenersPerChannel` and asserts the `(L+1)`-th subscribe fails
with `ChannelFull`.  With the limit configured to `2` and `L = 1 ≤ 2`,
one subscribe on the fresh channel `"news"` succeeds and the second
subscribe — the `(L+1)`-th — also succeeds instead of throwing
`EvMaxListenerError`. -/
theorem subscribe_limit_counterexample :
    1 ≤ (mkManager none (some 2) false).maxListeners ∧
    (subscribeSeq (mkManager none (some 2) false) "news" [0]).2 = [none] ∧
    (listenCore (subscribeSeq (mkManager none (some 2) false) "news" [0]).1
        "news" 1).2 = none := by
  decide

/-- Claim C1 (amended): on a fresh channel, subscribing any
duplicate-free block of at most `maxListeners` ids succeeds call by
call — subscribes below the limit never raise; and when the block has
exactly `maxListeners` ids, the next subscribe (any id) fails with
`EvMaxListenerError` carrying the current size (= the limit) and the
channel name. -/
theorem subscribe_limit_amended (s : ManagerState) (name : String)
    (ids : List Nat) (extra : Nat)
    (hfresh : getA s.listeners name = none)
    (hnodup : ids.Nodup)
    (hlen : ids.length ≤ s.maxListeners)
    (hmax : 1 ≤ s.maxListeners) :
    (subscribeSeq s name ids).2 = List.replicate ids.length none ∧
    (ids.length = s.maxListeners →
      (listenCore (subscribeSeq s name ids).1 name extra).2 =
        some (.maxListener s.maxListeners name)) := by
  cases ids with
  | nil =>
      refine ⟨by simp [subscribeSeq], ?_⟩
      intro h0
      simp at h0
      omega
  | cons id rest =>
      simp only [List.nodup_cons] at hnodup
      have hstep := listenCore_fresh s name id hfresh hmax
      have hget2 : getA (setA s.listeners name [id]) name = some [id] :=
        getA_setA_self _ _ _
      have hrest := subscribeSeq_ok name rest
        { s with listeners := setA s.listeners name [id] } [id]
        hget2
        (by
          intro i hi
          simp only [List.mem_singleton]
          intro h
          exact hnodup.1 (h ▸ hi))
        hnodup.2
        (by simp [List.length_cons] at hlen ⊢; omega)
      constructor
      · simp only [subscribeSeq, hstep]
        simp [hrest.1, List.replicate_succ]
      · intro hfull
        have hset : getA (subscribeSeq s name (id :: rest)).1.listeners name =
            some (id :: rest) := by
          simp only [subscribeSeq, hstep]
          simpa using hrest.2.1
        have hml : (subscribeSeq s name (id :: rest)).1.maxListeners =
            s.maxListeners := by
          simp only [subscribeSeq, hstep]
          exact hrest.2.2
        have := listenCore_full (subscribeSeq s name (id :: rest)).1 name extra
          (id :: rest) hset (by rw [hml]; omega)
        rw [this]
        simp [hfull]

/-- Claim C1 (witness): with the limit configured to `2`, subscribing
the two distinct ids `5` and `9` on the fresh channel `"news"` succeeds
twice, and the third subscribe fails with `EvMaxListenerError 2 "news"`. -/
theorem subscribe_limit_amended_witness :
    (getA (mkManager none (some 2) false).listeners "news" = none ∧
      ([5, 9] : List Nat).Nodup ∧
      ([5, 9] : List Nat).length ≤ (mkManager none (some 2) false).maxListeners ∧
      1 ≤ (mkManager none (some 2) false).maxListeners) ∧
    ((subscribeSeq (mkManager none (some 2) false) "news" [5, 9]).2 =
        List.replicate 2 none ∧
      (([5, 9] : List Nat).length = (mkManager none (some 2) false).maxListeners →
        (listenCore (subscribeSeq (mkManager none (some 2) false) "news" [5, 9]).1
            "news" 7).2 =
          some (.maxListener (mkManager none (some 2) false).maxListeners "news"))) :=
  ⟨⟨by decide, by decide, by decide, by decide⟩,
    subscribe_limit_amended (mkManager none (some 2) false) "news" [5, 9] 7
      (by decide) (by decide) (by decide) (by decide)⟩

/-! ## Further association-list facts, for the registry invariant -/

section AList2

variable {α : Type} {β : Type} [DecidableEq α]

theorem mem_of_getA {l : List (α × β)} {k : α} {v : β}
    (h : getA l k = some v) : (k, v) ∈ l := by
  induction l with
  | nil => simp [getA] at h
  | cons hd t ih =>
      obtain ⟨a, b⟩ := hd
      by_cases hk : a = k
      · subst hk
        simp [getA] at h
        simp [h]
      · simp [getA, hk] at h
        exact List.mem_cons_of_mem _ (ih h)

theorem getA_of_mem_nodup {l : List (α × β)} {p : α × β}
    (hnd : (l.map Prod.fst).Nodup) (h : p ∈ l) : getA l p.1 = some p.2 := by
  induction l with
  | nil => simp at h
  | cons hd t ih =>
      obtain ⟨a, b⟩ := hd
      simp only [List.map_cons, List.nodup_cons] at hnd
      rcases List.mem_cons.1 h with h | h
      · subst h
        simp [getA]
      · have hne : a ≠ p.1 := by
          intro hh
          exact hnd.1 (hh ▸ (List.mem_map_of_mem Prod.fst h))
        simp only [getA, if_neg hne]
        exact ih hnd.2 h

theorem getA_isSome_of_mem_keys {l : List (α × β)} {k : α}
    (h : k ∈ l.map Prod.fst) : (getA l k).isSome := by
  induction l with
  | nil => simp at h
  | cons hd t ih =>
      obtain ⟨a, b⟩ := hd
      by_cases hk : a = k
      · simp [getA, hk]
      · simp only [List.map_cons, List.mem_cons] at h
        rcases h with h | h
        · exact absurd h.symm hk
        · simp only [getA, if_neg hk]
          exact ih h

theorem not_mem_keys_of_getA_none {l : List (α × β)} {k : α}
    (h : getA l k = none) : k ∉ l.map Prod.fst := by
  intro hmem
  have := getA_isSome_of_mem_keys hmem
  rw [h] at this
  simp at this

end AList2

/-! ## Claim C9: the registry invariant -/

/-- A well-formed channel entry of manager state `s`: a non-empty,
duplicate-free listener set each of whose ids is a registered client
that has the channel recorded on its handle's `channels` array. -/
def chanOk (s : ManagerState) (p : String × List Nat) : Prop :=
  p.2 ≠ [] ∧ p.2.Nodup ∧
    ∀ id ∈ p.2, ∃ conn, getA s.clients id = some conn ∧ p.1 ∈ conn.channels

/-- The registry invariant: a positive listener limit (guaranteed by the
constructor defaults), duplicate-free key lists for both maps, every
channel entry well formed, and every client id below the fresh-id
counter. -/
def Inv (s : ManagerState) : Prop :=
  1 ≤ s.maxListeners ∧
  (s.clients.map Prod.fst).Nodup ∧
  (s.listeners.map Prod.fst).Nodup ∧
  (∀ p ∈ s.listeners, chanOk s p) ∧
  (∀ p ∈ s.clients, p.1 < s.nextUid)

theorem inv_mkManager (mc ml : Option Nat) (ps : Bool) :
    Inv (mkManager mc ml ps) := by
  refine ⟨?_, by simp [mkManager], by simp [mkManager], ?_, ?_⟩
  · unfold mkManager natOrDefault
    match ml with
    | none => simp
    | some 0 => simp
    | some (n + 1) => simp
  · intro p hp
    simp [mkManager] at hp
  · intro p hp
    simp [mkManager] at hp

/-! ### Preservation of `Inv` by each operation -/

theorem inv_createStream {s : ManagerState} (h : Inv s) :
    Inv (createStream s).1 := by
  obtain ⟨hml, hcnd, hlnd, hch, hbound⟩ := h
  unfold createStream
  by_cases hfull : s.count ≥ s.maxConnections
  · rw [if_pos hfull]
    exact ⟨hml, hcnd, hlnd, hch, hbound⟩
  · rw [if_neg hfull]
    refine ⟨hml, ?_, hlnd, ?_, ?_⟩
    · simp only [List.map_append, List.map_cons, List.map_nil]
      rw [List.nodup_append]
      refine ⟨hcnd, by simp, ?_⟩
      intro a ha
      simp only [List.mem_singleton]
      intro hb
      subst hb
      obtain ⟨p, hp, hp1⟩ := List.mem_map.1 ha
      exact absurd (hp1 ▸ hbound p hp) (by omega)
    · intro p hp
      obtain ⟨hne, hnd, hlive⟩ := hch p hp
      refine ⟨hne, hnd, ?_⟩
      intro id hid
      obtain ⟨conn, hconn, hchan⟩ := hlive id hid
      exact ⟨conn, getA_append_left _ _ _ _ hconn, hchan⟩
    · intro p hp
      simp only [List.mem_append, List.mem_singleton] at hp
      rcases hp with hp | hp
      · exact Nat.lt_succ_of_lt (hbound p hp)
      · simp [hp]

/-- Replacing one client's record with one whose `channels` list is a
superset preserves the invariant. -/
theorem inv_clientUpdate {s : ManagerState} (h : Inv s) (id : Nat)
    {conn : ClientConn} (conn1 : ClientConn)
    (hconn : getA s.clients id = some conn)
    (hsup : ∀ c ∈ conn.channels, c ∈ conn1.channels) :
    Inv { s with clients := setA s.clients id conn1 } := by
  obtain ⟨hml, hcnd, hlnd, hch, hbound⟩ := h
  refine ⟨hml, ?_, hlnd, ?_, ?_⟩
  · rw [keys_setA_of_mem _ _ _ (by rw [hconn]; rfl)]
    exact hcnd
  · intro p hp
    obtain ⟨hne, hnd, hlive⟩ := hch p hp
    refine ⟨hne, hnd, ?_⟩
    intro id' hid'
    obtain ⟨conn', hconn', hchan⟩ := hlive id' hid'
    by_cases hid2 : id' = id
    · subst hid2
      refine ⟨conn1, getA_setA_self _ _ _, ?_⟩
      rw [hconn] at hconn'
      injection hconn' with hc
      exact hsup _ (hc ▸ hchan)
    · exact ⟨conn', by rw [getA_setA_ne _ _ hid2]; exact hconn', hchan⟩
  · intro p hp
    rcases mem_setA _ _ _ hp with hp | hp
    · subst hp
      exact hbound (id, conn) (mem_of_getA hconn)
    · exact hbound p hp

/-- Evaluation of `#listen` below the limit, without assuming the id is
fresh: `Set.add` keeps the set unchanged on a duplicate. -/
theorem listenCore_notFull (s : ManagerState) (name : String) (id : Nat)
    (cur : List Nat) (hcur : getA s.listeners name = some cur)
    (hlt : cur.length < s.maxListeners) :
    listenCore s name id =
      ({ s with
          listeners :=
            setA s.listeners name (if id ∈ cur then cur else cur ++ [id]) },
        none) := by
  unfold listenCore
  simp only [hcur]
  rw [if_neg (by omega)]

/-- `#listen` preserves the invariant, provided the subscribing id is a
registered client that already has the channel on its handle. -/
theorem inv_listenCore {s : ManagerState} (h : Inv s) (name : String)
    (id : Nat)
    (hid : ∃ conn, getA s.clients id = some conn ∧ name ∈ conn.channels) :
    Inv (listenCore s name id).1 := by
  obtain ⟨hml, hcnd, hlnd, hch, hbound⟩ := h
  cases hcur : getA s.listeners name with
  | none =>
      rw [listenCore_fresh s name id hcur hml]
      refine ⟨hml, hcnd, ?_, ?_, hbound⟩
      · rw [keys_setA_of_not_mem _ _ _ hcur, List.nodup_append]
        refine ⟨hlnd, by simp, ?_⟩
        intro a ha
        simp only [List.mem_singleton]
        intro hb
        exact absurd (hb ▸ ha) (not_mem_keys_of_getA_none hcur)
      · intro p hp
        rcases mem_setA _ _ _ hp with hp | hp
        · subst hp
          exact ⟨by simp, by simp, by simpa using hid⟩
        · exact hch p hp
  | some cur =>
      by_cases hfull : cur.length ≥ s.maxListeners
      · rw [listenCore_full s name id cur hcur hfull]
        exact ⟨hml, hcnd, hlnd, hch, hbound⟩
      · rw [listenCore_notFull s name id cur hcur (by omega)]
        have hmem : (name, cur) ∈ s.listeners := mem_of_getA hcur
        obtain ⟨hne, hnd, hlive⟩ := hch _ hmem
        refine ⟨hml, hcnd, ?_, ?_, hbound⟩
        · rw [keys_setA_of_mem _ _ _ (by rw [hcur]; rfl)]
          exact hlnd
        · intro p hp
          rcases mem_setA _ _ _ hp with hp | hp
          · subst hp
            by_cases hin : id ∈ cur
            · simp only [if_pos hin]
              exact ⟨hne, hnd, hlive⟩
            · simp only [if_neg hin]
              refine ⟨by simp, ?_, ?_⟩
              · simp [List.nodup_append, hnd, hin]
              · intro id' hid'
                simp only [List.mem_append, List.mem_singleton] at hid'
                rcases hid' with hid' | hid'
                · exact hlive id' hid'
                · exact hid' ▸ hid
          · exact hch p hp

/-- The handle's `listen` preserves the invariant. -/
theorem inv_listen {s : ManagerState} (h : Inv s) (id : Nat)
    (name : String) : Inv (listen s id name).1 := by
  cases hconn : getA s.clients id with
  | none =>
      simp only [listen, hconn]
      exact h
  | some conn =>
      simp only [listen, hconn]
      have h1 := inv_clientUpdate h id
        (ClientConn.mk (conn.channels ++ [name]) conn.writes) hconn
        (by intro c hc; simp [hc])
      exact inv_listenCore h1 name id
        ⟨{ conn with channels := conn.channels ++ [name] },
          getA_setA_self _ _ _, by simp⟩

/-- `#unlisten` touches only the listener index. -/
theorem unlisten_fields (s : ManagerState) (c : String) (id : Nat) :
    (unlisten s c id).clients = s.clients ∧
    (unlisten s c id).maxListeners = s.maxListeners ∧
    (unlisten s c id).nextUid = s.nextUid := by
  unfold unlisten
  cases getA s.listeners c
  · exact ⟨rfl, rfl, rfl⟩
  · dsimp only
    split <;> exact ⟨rfl, rfl, rfl⟩

/-- Full characterization of the listener index after one `#unlisten`:
the targeted channel's set is filtered, the entry dropped when the
filter empties it, and all other channels are untouched. -/
theorem unlisten_getA (s : ManagerState) (c : String) (id : Nat)
    (c' : String) (hnd : (s.listeners.map Prod.fst).Nodup) :
    getA (unlisten s c id).listeners c' =
      if c' = c then
        (match getA s.listeners c with
          | none => none
          | some set =>
              if (set.filter (· ≠ id)).length = 0 then none
              else some (set.filter (· ≠ id)))
      else getA s.listeners c' := by
  unfold unlisten
  cases hcur : getA s.listeners c with
  | none =>
      dsimp only
      by_cases hc : c' = c
      · rw [if_pos hc, hc, hcur]
      · rw [if_neg hc]
  | some set =>
      dsimp only
      by_cases hc : c' = c
      · subst hc
        rw [if_pos rfl]
        by_cases hlen : (set.filter (· ≠ id)).length = 0
        · rw [if_pos hlen, if_pos hlen]
          exact getA_eraseA_self _ _ hnd
        · rw [if_neg hlen, if_neg hlen]
          exact getA_setA_self _ _ _
      · rw [if_neg hc]
        by_cases hlen : (set.filter (· ≠ id)).length = 0
        · rw [if_pos hlen]
          exact getA_eraseA_ne _ hc
        · rw [if_neg hlen]
          exact getA_setA_ne _ _ hc

/-- The listener-index keys only shrink under `#unlisten`. -/
theorem unlisten_keys_sublist (s : ManagerState) (c : String) (id : Nat) :
    ((unlisten s c id).listeners.map Prod.fst).Sublist
      (s.listeners.map Prod.fst) := by
  unfold unlisten
  cases hcur : getA s.listeners c with
  | none => exact List.Sublist.refl _
  | some set =>
      dsimp only
      split
      · exact keys_eraseA_sublist _ _
      · rw [keys_setA_of_mem _ _ _ (by rw [hcur]; rfl)]

/-- Composite facts about the unsubscription loop of `close`
(`channels.forEach((ch) => this.#unlisten(ch, id))`): registry fields
other than the listener index are untouched, index keys only shrink,
every surviving set is a non-empty duplicate-free subset of the
corresponding original set, and the id is gone from every channel of the
processed list. -/
theorem foldUnlisten (id : Nat) :
    ∀ (L : List String) (s : ManagerState),
      (s.listeners.map Prod.fst).Nodup →
      (∀ cc ss, getA s.listeners cc = some ss → ss ≠ [] ∧ ss.Nodup) →
      (L.foldl (fun st ch => unlisten st ch id) s).clients = s.clients ∧
      (L.foldl (fun st ch => unlisten st ch id) s).maxListeners =
        s.maxListeners ∧
      (L.foldl (fun st ch => unlisten st ch id) s).nextUid = s.nextUid ∧
      (((L.foldl (fun st ch => unlisten st ch id) s).listeners.map
          Prod.fst).Sublist (s.listeners.map Prod.fst)) ∧
      (∀ c' set',
        getA (L.foldl (fun st ch => unlisten st ch id) s).listeners c' =
          some set' →
        (∃ set, getA s.listeners c' = some set ∧ set' ⊆ set) ∧
          set' ≠ [] ∧ set'.Nodup) ∧
      (∀ c ∈ L, ∀ set',
        getA (L.foldl (fun st ch => unlisten st ch id) s).listeners c =
          some set' → id ∉ set') := by
  intro L
  induction L with
  | nil =>
      intro s hnd hsets
      refine ⟨rfl, rfl, rfl, List.Sublist.refl _, ?_, by simp⟩
      intro c' set' h
      exact ⟨⟨set', h, List.Subset.refl _⟩, (hsets c' set' h).1,
        (hsets c' set' h).2⟩
  | cons c rest ih =>
      intro s hnd hsets
      have hstep := unlisten_getA s c id
      have hufields := unlisten_fields s c id
      have hukeys := unlisten_keys_sublist s c id
      have hund : ((unlisten s c id).listeners.map Prod.fst).Nodup :=
        hukeys.nodup hnd
      have husets : ∀ cc ss, getA (unlisten s c id).listeners cc = some ss →
          ss ≠ [] ∧ ss.Nodup := by
        intro cc ss h
        rw [hstep cc hnd] at h
        by_cases hc : cc = c
        · rw [if_pos hc] at h
          cases hcur : getA s.listeners c with
          | none => simp [hcur] at h
          | some set =>
              simp only [hcur] at h
              by_cases hlen : (set.filter (· ≠ id)).length = 0
              · rw [if_pos hlen] at h
                exact absurd h (by simp)
              · rw [if_neg hlen] at h
                injection h with h
                subst h
                refine ⟨?_, ((hsets c set hcur).2).filter _⟩
                intro hnil
                rw [hnil] at hlen
                simp at hlen
        · rw [if_neg hc] at h
          exact hsets cc ss h
      have husub : ∀ cc ss, getA (unlisten s c id).listeners cc = some ss →
          ∃ set, getA s.listeners cc = some set ∧ ss ⊆ set := by
        intro cc ss h
        rw [hstep cc hnd] at h
        by_cases hc : cc = c
        · rw [if_pos hc] at h
          cases hcur : getA s.listeners c with
          | none => simp [hcur] at h
          | some set =>
              simp only [hcur] at h
              by_cases hlen : (set.filter (· ≠ id)).length = 0
              · rw [if_pos hlen] at h
                exact absurd h (by simp)
              · rw [if_neg hlen] at h
                injection h with h
                subst h
                exact ⟨set, hc ▸ hcur, List.filter_subset' _⟩
        · rw [if_neg hc] at h
          exact ⟨ss, h, List.Subset.refl _⟩
      have hurm : ∀ ss, getA (unlisten s c id).listeners c = some ss →
          id ∉ ss := by
        intro ss h
        rw [hstep c hnd, if_pos rfl] at h
        cases hcur : getA s.listeners c with
        | none => simp [hcur] at h
        | some set =>
            simp only [hcur] at h
            by_cases hlen : (set.filter (· ≠ id)).length = 0
            · rw [if_pos hlen] at h
              exact absurd h (by simp)
            · rw [if_neg hlen] at h
              injection h with h
              subst h
              intro hmem
              simp at hmem
      obtain ⟨ic, im, inu, isub, isets, irm⟩ :=
        ih (unlisten s c id) hund husets
      rw [List.foldl_cons]
      refine ⟨by rw [ic, hufields.1], by rw [im, hufields.2.1],
        by rw [inu, hufields.2.2], isub.trans hukeys, ?_, ?_⟩
      · intro c' set' h
        obtain ⟨⟨su, hsu, hsub⟩, hne, hnd'⟩ := isets c' set' h
        obtain ⟨sorig, hsorig, hsub2⟩ := husub c' su hsu
        exact ⟨⟨sorig, hsorig, hsub.trans hsub2⟩, hne, hnd'⟩
      · intro cc hcc set' h
        rcases List.mem_cons.1 hcc with hcc | hcc
        · subst hcc
          obtain ⟨⟨su, hsu, hsub⟩, _, _⟩ := isets cc set' h
          intro hmem
          exact hurm su hsu (hsub hmem)
        · exact irm cc hcc set' h

/-- The handle's `close` preserves the invariant. -/
theorem inv_closeStream {s : ManagerState} (h : Inv s) (id : Nat) :
    Inv (closeStream s id) := by
  obtain ⟨hml, hcnd, hlnd, hch, hbound⟩ := h
  unfold closeStream
  cases hconn : getA s.clients id with
  | none => exact ⟨hml, hcnd, hlnd, hch, hbound⟩
  | some conn =>
      dsimp only
      set s1 : ManagerState := { s with count := s.count - 1 } with hs1
      obtain ⟨fc, fm, fn, fsub, fsets, frm⟩ :=
        foldUnlisten id conn.channels s1 hlnd
          (by
            intro cc ss hss
            have hmem2 : (cc, ss) ∈ s1.listeners := mem_of_getA hss
            have := hch _ hmem2
            exact ⟨this.1, this.2.1⟩)
      set t := conn.channels.foldl (fun st ch => unlisten st ch id) s1 with ht
      have htnd : (t.listeners.map Prod.fst).Nodup := fsub.nodup hlnd
      refine ⟨by rw [fm]; exact hml, ?_, htnd, ?_, ?_⟩
      · show ((eraseA t.clients id).map Prod.fst).Nodup
        have hsub : ((eraseA t.clients id).map Prod.fst).Sublist
            (t.clients.map Prod.fst) := keys_eraseA_sublist _ _
        have hnd2 : (t.clients.map Prod.fst).Nodup := by
          rw [fc]
          exact hcnd
        exact hsub.nodup hnd2
      · intro p hp
        have hgp : getA t.listeners p.1 = some p.2 :=
          getA_of_mem_nodup htnd hp
        obtain ⟨⟨sorig, hsorig, hsub⟩, hne, hnd'⟩ := fsets p.1 p.2 hgp
        refine ⟨hne, hnd', ?_⟩
        intro id' hid'
        have hidorig : id' ∈ sorig := hsub hid'
        have hmemo : (p.1, sorig) ∈ s.listeners := mem_of_getA hsorig
        obtain ⟨_, _, hlive⟩ := hch _ hmemo
        obtain ⟨conn', hconn', hchan⟩ := hlive id' hidorig
        have hne2 : id' ≠ id := by
          intro hq
          subst hq
          rw [hconn] at hconn'
          injection hconn' with hc
          subst hc
          exact frm p.1 hchan p.2 hgp hid'
        refine ⟨conn', ?_, hchan⟩
        show getA (eraseA t.clients id) id' = some conn'
        rw [getA_eraseA_ne _ hne2, fc]
        exact hconn'
      · intro p hp
        have : p ∈ t.clients := mem_eraseA _ _ hp
        rw [fc] at this
        show p.1 < t.nextUid
        rw [fn]
        exact hbound p this

/-- The broadcast loop body changes only the target client's `writes`:
the listener index, the client key list, every client's `channels`, and
the remaining fields are untouched. -/
theorem writeStep_shape (name : String) (msg : EvMessage)
    (st : ManagerState) (id : Nat) :
    (writeStep name msg st id).listeners = st.listeners ∧
    (writeStep name msg st id).maxListeners = st.maxListeners ∧
    (writeStep name msg st id).nextUid = st.nextUid ∧
    ((writeStep name msg st id).clients.map Prod.fst =
      st.clients.map Prod.fst) ∧
    (∀ id', (getA (writeStep name msg st id).clients id').map
        ClientConn.channels = (getA st.clients id').map ClientConn.channels) ∧
    (∀ n, (∀ p ∈ st.clients, p.1 < n) →
      ∀ p ∈ (writeStep name msg st id).clients, p.1 < n) := by
  unfold writeStep
  cases hconn : getA st.clients id with
  | none => exact ⟨rfl, rfl, rfl, rfl, fun _ => rfl, fun n hb => hb⟩
  | some conn =>
      dsimp only
      refine ⟨rfl, rfl, rfl,
        keys_setA_of_mem _ _ _ (by rw [hconn]; rfl), ?_, ?_⟩
      · intro id'
        by_cases hid : id' = id
        · subst hid
          rw [getA_setA_self, hconn]
          rfl
        · rw [getA_setA_ne _ _ hid]
      · intro n hb p hp
        rcases mem_setA _ _ _ hp with hp | hp
        · subst hp
          exact hb (id, conn) (mem_of_getA hconn)
        · exact hb p hp

/-- `writeStep_shape` folded over the whole listener set. -/
theorem foldWrite_shape (name : String) (msg : EvMessage) :
    ∀ (set : List Nat) (s : ManagerState),
      (set.foldl (writeStep name msg) s).listeners = s.listeners ∧
      (set.foldl (writeStep name msg) s).maxListeners = s.maxListeners ∧
      (set.foldl (writeStep name msg) s).nextUid = s.nextUid ∧
      ((set.foldl (writeStep name msg) s).clients.map Prod.fst =
        s.clients.map Prod.fst) ∧
      (∀ id', (getA (set.foldl (writeStep name msg) s).clients id').map
          ClientConn.channels =
        (getA s.clients id').map ClientConn.channels) ∧
      (∀ n, (∀ p ∈ s.clients, p.1 < n) →
        ∀ p ∈ (set.foldl (writeStep name msg) s).clients, p.1 < n) := by
  intro set
  induction set with
  | nil =>
      intro s
      exact ⟨rfl, rfl, rfl, rfl, fun _ => rfl, fun n hb => hb⟩
  | cons e rest ih =>
      intro s
      obtain ⟨w1, w2, w3, w4, w5, w6⟩ := writeStep_shape name msg s e
      obtain ⟨i1, i2, i3, i4, i5, i6⟩ := ih (writeStep name msg s e)
      rw [List.foldl_cons]
      exact ⟨i1.trans w1, i2.trans w2, i3.trans w3, i4.trans w4,
        fun id' => (i5 id').trans (w5 id'),
        fun n hb => i6 n (w6 n hb)⟩

/-- `sendLocal` (and hence `send`) preserves the invariant. -/
theorem inv_sendLocal {s : ManagerState} (h : Inv s) (name : String)
    (msg : EvMessage) : Inv (sendLocal s name msg) := by
  obtain ⟨hml, hcnd, hlnd, hch, hbound⟩ := h
  unfold sendLocal
  cases hcur : getA s.listeners name with
  | none => exact ⟨hml, hcnd, hlnd, hch, hbound⟩
  | some set =>
      dsimp only
      obtain ⟨w1, w2, w3, w4, w5, w6⟩ := foldWrite_shape name msg set s
      refine ⟨by rw [w2]; exact hml, by rw [w4]; exact hcnd,
        by rw [w1]; exact hlnd, ?_, ?_⟩
      · intro p hp
        rw [w1] at hp
        obtain ⟨hne, hnd, hlive⟩ := hch p hp
        refine ⟨hne, hnd, ?_⟩
        intro id' hid'
        obtain ⟨conn', hconn', hchan⟩ := hlive id' hid'
        have := w5 id'
        rw [hconn'] at this
        cases hnew : getA (set.foldl (writeStep name msg) s).clients id' with
        | none => rw [hnew] at this; simp at this
        | some conn2 =>
            rw [hnew] at this
            simp only [Option.map_some'] at this
            injection this with hc
            exact ⟨conn2, rfl, hc.symm ▸ hchan⟩
      · intro p hp
        rw [w3]
        exact w6 s.nextUid hbound p hp

theorem inv_send {s : ManagerState} (h : Inv s) (name : String)
    (msg : EvMessage) : Inv (send s name msg) := by
  have h1 := inv_sendLocal h name msg
  unfold send
  by_cases hp : (sendLocal s name msg).hasPubSub
  · rw [if_pos hp]
    obtain ⟨a1, a2, a3, a4, a5⟩ := h1
    exact ⟨a1, a2, a3, a4, a5⟩
  · rw [if_neg hp]
    exact h1

/-- Every operation preserves the invariant. -/
theorem inv_step {s : ManagerState} (h : Inv s) (op : MOp) :
    Inv (step s op) := by
  cases op with
  | create => exact inv_createStream h
  | listen id name => exact inv_listen h id name
  | close id => exact inv_closeStream h id
  | send name msg => exact inv_send h name msg

/-- Every state reached from a freshly constructed manager satisfies the
invariant. -/
theorem inv_run (mc ml : Option Nat) (ps : Bool) (ops : List MOp) :
    Inv (run (mkManager mc ml ps) ops) := by
  suffices hgen : ∀ (ops : List MOp) (s : ManagerState), Inv s →
      Inv (run s ops) from hgen ops _ (inv_mkManager mc ml ps)
  intro ops
  induction ops with
  | nil => intro s hs; exact hs
  | cons op rest ih =>
      intro s hs
      exact ih _ (inv_step hs op)

/-- Claim C9: after any sequence of stream creations, channel
subscriptions, closes, and broadcasts on a freshly constructed manager,
the channel index holds no entry with an empty listener set, and every
connection id in any channel's set still has a live entry in the client
registry. -/
theorem registry_invariant (mc ml : Option Nat) (ps : Bool)
    (ops : List MOp) :
    ∀ p ∈ (run (mkManager mc ml ps) ops).listeners,
      p.2 ≠ [] ∧
      ∀ id ∈ p.2,
        (getA (run (mkManager mc ml ps) ops).clients id).isSome := by
  intro p hp
  obtain ⟨_, _, _, hch, _⟩ := inv_run mc ml ps ops
  obtain ⟨hne, _, hlive⟩ := hch p hp
  refine ⟨hne, ?_⟩
  intro id hid
  obtain ⟨conn, hconn, _⟩ := hlive id hid
  rw [hconn]
  rfl

/-- Claim C9 (witness): a concrete run — create a stream, subscribe it
to `"news"`, create a second stream, subscribe it, close the first —
leaves exactly the second client listed on `"news"`, a non-empty set
whose id is live. -/
theorem registry_invariant_witness :
    (("news", [1]) ∈
      (run (mkManager none none false)
        [.create, .listen 0 "news", .create, .listen 1 "news",
          .close 0]).listeners) ∧
    (("news", ([1] : List Nat)).2 ≠ [] ∧
      ∀ id ∈ ("news", ([1] : List Nat)).2,
        (getA (run (mkManager none none false)
          [.create, .listen 0 "news", .create, .listen 1 "news",
            .close 0]).clients id).isSome) :=
  ⟨by decide,
    registry_invariant none none false
      [.create, .listen 0 "news", .create, .listen 1 "news", .close 0]
      ("news", [1]) (by decide)⟩

/-! ## Claim C10: duplicate subscription and single delivery -/

/-- `#listen` never touches the client registry. -/
theorem listenCore_clients (s : ManagerState) (name : String) (id : Nat) :
    (listenCore s name id).1.clients = s.clients := by
  unfold listenCore
  cases getA s.listeners name <;> dsimp only <;> split <;> rfl

/-- A successful `#listen` leaves the id in the channel's set. -/
theorem listenCore_success_mem {s : ManagerState} {name : String}
    {id : Nat} (h : (listenCore s name id).2 = none) :
    ∃ set, getA (listenCore s name id).1.listeners name = some set ∧
      id ∈ set := by
  unfold listenCore at h ⊢
  cases hcur : getA s.listeners name with
  | none =>
      simp only [hcur] at h ⊢
      by_cases hfull : (([] : List Nat)).length ≥ s.maxListeners
      · rw [if_pos hfull] at h
        simp at h
      · rw [if_neg hfull] at h ⊢
        dsimp only
        refine ⟨(if id ∈ ([] : List Nat) then [] else [] ++ [id]), ?_, ?_⟩
        · exact getA_setA_self _ _ _
        · simp
  | some cur =>
      simp only [hcur] at h ⊢
      by_cases hfull : cur.length ≥ s.maxListeners
      · rw [if_pos hfull] at h
        simp at h
      · rw [if_neg hfull] at h ⊢
        dsimp only
        refine ⟨(if id ∈ cur then cur else cur ++ [id]), getA_setA_self _ _ _, ?_⟩
        by_cases hin : id ∈ cur
        · rw [if_pos hin]; exact hin
        · rw [if_neg hin]; simp

/-- The broadcast loop leaves other clients' lookups alone. -/
theorem writeStep_getA_ne (name : String) (msg : EvMessage)
    (st : ManagerState) {e id : Nat} (h : e ≠ id) :
    getA (writeStep name msg st e).clients id = getA st.clients id := by
  unfold writeStep
  cases getA st.clients e with
  | none => rfl
  | some conn =>
      dsimp only
      exact getA_setA_ne _ _ (fun hh => h hh.symm)

/-- Fan-out of one broadcast over a listener set: a registered client
receives exactly as many copies of the wrapped message as its id has
occurrences in the set. -/
theorem foldWrite_writes (name : String) (msg : EvMessage) (id : Nat) :
    ∀ (set : List Nat) (st : ManagerState) (conn : ClientConn),
      getA st.clients id = some conn →
      getA (set.foldl (writeStep name msg) st).clients id =
        some ⟨conn.channels,
          conn.writes ++ List.replicate (set.count id) (wrapMsg name msg)⟩ := by
  intro set
  induction set with
  | nil =>
      intro st conn hconn
      simp only [List.foldl_nil, List.count_nil, List.replicate_zero,
        List.append_nil]
      rw [hconn]
  | cons e rest ih =>
      intro st conn hconn
      rw [List.foldl_cons]
      by_cases he : e = id
      · subst he
        have hstep : getA (writeStep name msg st e).clients e =
            some { conn with writes := conn.writes ++ [wrapMsg name msg] } := by
          unfold writeStep
          rw [hconn]
          exact getA_setA_self _ _ _
        rw [ih _ _ hstep]
        simp [List.count_cons, List.replicate_succ, List.append_assoc]
      · have hstep : getA (writeStep name msg st e).clients id =
            some conn := by
          rw [writeStep_getA_ne name msg st he]
          exact hconn
        rw [ih _ _ hstep]
        have hcnt : (e :: rest).count id = rest.count id := by
          simp [List.count_cons]
          intro hq
          exact he hq
        rw [hcnt]

/-- The state after an open handle's `listen` pushed the channel onto
its `channels` array, just before `#listen` runs. -/
def listenOpen (s : ManagerState) (id : Nat) (name : String)
    (conn : ClientConn) : ManagerState :=
  let conn1 : ClientConn := { conn with channels := conn.channels ++ [name] }
  { s with clients := setA s.clients id conn1 }

/-- `listen` on an open handle is `#listen` after the channel push. -/
theorem listen_eq_of_open {s : ManagerState} {id : Nat} (name : String)
    {conn : ClientConn} (hconn : getA s.clients id = some conn) :
    listen s id name = listenCore (listenOpen s id name conn) name id := by
  simp only [listen, hconn, listenOpen]

/-- Claim C10: on an open handle, subscribing the same connection to the
same channel twice (both calls succeeding, i.e. below the listener
limit) leaves the connection id exactly once in the channel's set, and a
subsequent broadcast to that channel writes exactly one copy of the
wrapped message to that connection's sink. -/
theorem duplicate_listen_single_delivery (s : ManagerState)
    (hinv : Inv s) (id : Nat) (c : String) (msg : EvMessage)
    (conn0 : ClientConn) (hopen : getA s.clients id = some conn0)
    (h2 : (listen (listen s id c).1 id c).2 = none) :
    ∃ set conn,
      getA (listen (listen s id c).1 id c).1.listeners c = some set ∧
      set.count id = 1 ∧
      getA (listen (listen s id c).1 id c).1.clients id = some conn ∧
      getA (send (listen (listen s id c).1 id c).1 c msg).clients id =
        some ⟨conn.channels, conn.writes ++ [wrapMsg c msg]⟩ := by
  have hinv1 : Inv (listen s id c).1 := inv_listen hinv id c
  have hinv2 : Inv (listen (listen s id c).1 id c).1 :=
    inv_listen hinv1 id c
  have hc1 : getA (listen s id c).1.clients id =
      some { conn0 with channels := conn0.channels ++ [c] } := by
    rw [listen_eq_of_open c hopen, listenCore_clients]
    exact getA_setA_self _ _ _
  have hl2 := listen_eq_of_open c hc1
  have hmem : ∃ set,
      getA (listen (listen s id c).1 id c).1.listeners c = some set ∧
      id ∈ set := by
    rw [hl2] at h2 ⊢
    exact listenCore_success_mem h2
  obtain ⟨set, hset, hid⟩ := hmem
  obtain ⟨_, _, _, hch, _⟩ := hinv2
  obtain ⟨_, hnd, _⟩ := hch _ (mem_of_getA hset)
  have hcount : set.count id = 1 := List.count_eq_one_of_mem hnd hid
  have hc2 : getA (listen (listen s id c).1 id c).1.clients id =
      some { channels := (conn0.channels ++ [c]) ++ [c],
             writes := conn0.writes } := by
    rw [hl2, listenCore_clients]
    unfold listenOpen
    dsimp only
    exact getA_setA_self _ _ _
  refine ⟨set, _, hset, hcount, hc2, ?_⟩
  have hsend : getA (sendLocal (listen (listen s id c).1 id c).1 c
      msg).clients id =
      some ⟨(conn0.channels ++ [c]) ++ [c],
        conn0.writes ++ [wrapMsg c msg]⟩ := by
    unfold sendLocal
    rw [hset]
    have hw := foldWrite_writes c msg id set
      (listen (listen s id c).1 id c).1 _ hc2
    rw [hw, hcount]
    simp
  unfold send
  by_cases hp : (sendLocal (listen (listen s id c).1 id c).1 c
      msg).hasPubSub
  · rw [if_pos hp]
    exact hsend
  · rw [if_neg hp]
    exact hsend

/-- Claim C10 (witness): one freshly created stream, `listen("news")`
twice, one broadcast: the sink receives exactly one wrapped copy. -/
theorem duplicate_listen_single_delivery_witness :
    (getA (run (mkManager none none false) [.create]).clients 0 =
        some ⟨[], []⟩ ∧
      (listen (listen (run (mkManager none none false) [.create]) 0
          "news").1 0 "news").2 = none) ∧
    (∃ set conn,
      getA (listen (listen (run (mkManager none none false) [.create]) 0
          "news").1 0 "news").1.listeners "news" = some set ∧
      set.count 0 = 1 ∧
      getA (listen (listen (run (mkManager none none false) [.create]) 0
          "news").1 0 "news").1.clients 0 = some conn ∧
      getA (send (listen (listen (run (mkManager none none false)
          [.create]) 0 "news").1 0 "news").1 "news"
          ⟨some "e", .str "x", none⟩).clients 0 =
        some ⟨conn.channels,
          conn.writes ++ [wrapMsg "news" ⟨some "e", .str "x", none⟩]⟩) :=
  ⟨⟨by decide, by decide⟩,
    duplicate_listen_single_delivery
      (run (mkManager none none false) [.create])
      (inv_run none none false [.create]) 0 "news"
      ⟨some "e", .str "x", none⟩ ⟨[], []⟩ (by decide) (by decide)⟩

/-! ## Claim C2: broadcast to an unknown channel -/

/-- Claim C2: `send` to a channel with no listener entry is a no-op on
every connection: `sendLocal` hits the `if (!listeners) return msg`
guard and returns without writing (and without dereferencing the missing
entry), so no client sink receives anything and nothing is thrown;
`send` additionally relays to the pub/sub outbox but leaves all clients
and the channel index untouched. -/
theorem send_unknown_channel (s : ManagerState) (name : String)
    (msg : EvMessage) (h : getA s.listeners name = none) :
    sendLocal s name msg = s ∧
    (send s name msg).clients = s.clients ∧
    (send s name msg).listeners = s.listeners := by
  have h1 : sendLocal s name msg = s := by
    unfold sendLocal
    rw [h]
  refine ⟨h1, ?_, ?_⟩ <;>
    · unfold send
      rw [h1]
      by_cases hp : s.hasPubSub <;> simp [hp]

/-- Claim C2 (witness): sending to the never-subscribed channel
`"nowhere"` of a fresh manager changes nothing. -/
theorem send_unknown_channel_witness :
    getA (mkManager none none true).listeners "nowhere" = none ∧
    (sendLocal (mkManager none none true) "nowhere"
        ⟨some "e", .str "x", none⟩ = mkManager none none true ∧
      (send (mkManager none none true) "nowhere"
          ⟨some "e", .str "x", none⟩).clients =
        (mkManager none none true).clients ∧
      (send (mkManager none none true) "nowhere"
          ⟨some "e", .str "x", none⟩).listeners =
        (mkManager none none true).listeners) :=
  ⟨by decide,
    send_unknown_channel (mkManager none none true) "nowhere"
      ⟨some "e", .str "x", none⟩ (by decide)⟩

/-! ## The SSE connection (stream.ts, `Evstream`)

The `ServerResponse` sink is abstracted to the ordered list of chunks
written to it plus an `ended` flag; the heartbeat interval and the
registered `close`-event listener are abstracted to their existence
flags. -/

/-- Observable actions `close` performs on the timer, the listener
registration, and the sink, in order. -/
inductive SinkAction where
  | stopHeartbeat
  | removeCloseListener
  | write (chunk : String)
  | endResponse
deriving DecidableEq, Repr

/-- The state of one `Evstream` connection. -/
structure EvstreamConn where
  heartbeatActive : Bool
  closeListener : Bool
  writes : List String
  ended : Bool
deriving DecidableEq, Repr

/-- Embeds the `Evstream` constructor: with a (truthy) heartbeat option
the interval is started and the `close`-event handler registered. -/
def mkEvstream (heartbeat : Option Nat) : EvstreamConn :=
  match heartbeat with
  | some n => if n = 0 then ⟨false, false, [], false⟩
              else ⟨true, true, [], false⟩
  | none => ⟨false, false, [], false⟩

/-- Embeds `Evstream.message`: encode and write to the sink. -/
def writeMessage (s : EvstreamConn) (m : EvMessage) : EvstreamConn :=
  { s with writes := s.writes ++ [message m] }

/-- Embeds `#clearHeartbeat`: clears the interval if it exists. -/
def clearHeartbeat (s : EvstreamConn) : EvstreamConn × List SinkAction :=
  if s.heartbeatActive then
    ({ s with heartbeatActive := false }, [.stopHeartbeat])
  else (s, [])

/-- Embeds `#removeCloseListener`: removes the registered handler if it
exists. -/
def removeCloseListener (s : EvstreamConn) :
    EvstreamConn × List SinkAction :=
  if s.closeListener then
    ({ s with closeListener := false }, [.removeCloseListener])
  else (s, [])

/-- One firing of the heartbeat interval: writes the heartbeat frame
while the interval is live, does nothing once it is cleared. -/
def heartbeatTick (s : EvstreamConn) : EvstreamConn :=
  if s.heartbeatActive then
    writeMessage s { event := some "heartbeat", data := .str "" }
  else s

/-- The encoded terminal frame `{ event: 'end', data: '' }`. -/
def endText : String := message { event := some "end", data := .str "" }

/-- Embeds `Evstream.close`: clear the heartbeat, remove the close
listener, then send the terminal `end` event and end the response —
returning the final state and the ordered action trace. -/
def close (s : EvstreamConn) : EvstreamConn × List SinkAction :=
  let r1 := clearHeartbeat s
  let r2 := removeCloseListener r1.1
  let s3 := { writeMessage r2.1 { event := some "end", data := .str "" }
              with ended := true }
  (s3, r1.2 ++ r2.2 ++ [.write endText, .endResponse])

/-- Claim C6: on a connection with a heartbeat configured, `close`
first stops the heartbeat timer, then removes the close-event listener,
and only then writes the terminal `end` event and ends the response —
and after `close` returns the heartbeat interval is gone, so a late
timer firing writes nothing. -/
theorem close_order_and_heartbeat_quiescence (s : EvstreamConn)
    (hb : s.heartbeatActive = true) (cl : s.closeListener = true) :
    (close s).2 = [.stopHeartbeat, .removeCloseListener,
      .write endText, .endResponse] ∧
    (close s).1.heartbeatActive = false ∧
    heartbeatTick (close s).1 = (close s).1 := by
  unfold close clearHeartbeat removeCloseListener
  rw [hb, cl]
  simp [heartbeatTick, writeMessage]

/-- Claim C6 (witness): a connection built with `heartbeat: 30000`. -/
theorem close_order_and_heartbeat_quiescence_witness :
    ((mkEvstream (some 30000)).heartbeatActive = true ∧
      (mkEvstream (some 30000)).closeListener = true) ∧
    ((close (mkEvstream (some 30000))).2 = [.stopHeartbeat,
        .removeCloseListener, .write endText, .endResponse] ∧
      (close (mkEvstream (some 30000))).1.heartbeatActive = false ∧
      heartbeatTick (close (mkEvstream (some 30000))).1 =
        (close (mkEvstream (some 30000))).1) :=
  ⟨⟨by decide, by decide⟩,
    close_order_and_heartbeat_quiescence (mkEvstream (some 30000))
      (by decide) (by decide)⟩

/-! ## Claim C7: authentication outcomes -/

/-- The value an `authenticate` call resolves with: `true`, `false`, or
`undefined` (the function falling through without a `return`). -/
inductive RetVal where
  | rTrue
  | rFalse
  | rUndef
deriving DecidableEq, Repr

/-- What the caller-supplied `verify` callback resolved with:
`boolean`, an `EvMessage` object, `null`, or `undefined`. -/
inductive VerifyResult where
  | bool (b : Bool)
  | msgObj (m : EvMessage)
  | nullObj
  | undef
deriving DecidableEq, Repr

/-- The error frame sent on rejection:
`{ data: { message: 'authentication failed' }, event: 'error' }`. -/
def authFailedMsg : EvMessage :=
  { event := some "error", data := .obj [("message", "authentication failed")] }

/-- Embeds `Evstream.authenticate` (stream.ts).  The outer `Option` is
whether `opts.authentication` is configured; the result models the JS
control flow faithfully: a boolean result is tested first; then
`typeof isAuthenticated === 'object'` — which is also true for `null`,
so a `null` verifier result reaches `this.message(null)` and the encoder
dereferences `msg.event` on `null`, raising a `TypeError` (the `Except`
error case); everything else falls through to `return false`; with no
authentication configured the function returns `undefined`. -/
def authenticate (conn : EvstreamConn) (auth : Option VerifyResult) :
    Except String (EvstreamConn × RetVal) :=
  match auth with
  | none => .ok (conn, .rUndef)
  | some r =>
      match r with
      | .bool b =>
          if b then .ok (conn, .rTrue)
          else
            let c1 := (clearHeartbeat conn).1
            .ok ({ writeMessage c1 authFailedMsg with ended := true },
              .rFalse)
      | .msgObj m => .ok (writeMessage conn m, .rTrue)
      | .nullObj =>
          .error "TypeError: Cannot read properties of null (reading event)"
      | .undef => .ok (conn, .rFalse)

/-- Claim C7 (counterexample): the claim calls an absent
(`null`/`undefined`) verifier result a pass-through on which the caller
may proceed as authenticated.  A `null` result instead crashes with a
`TypeError` (it satisfies `typeof === 'object'` and is sent through
`message`, which dereferences `null.event`), and an `undefined` result
returns `false` — the same rejected outcome the readme tells callers to
stop on — rather than an authenticated pass-through. -/
theorem authenticate_absent_counterexample :
    authenticate (mkEvstream (some 30000)) (some .nullObj) =
      .error "TypeError: Cannot read properties of null (reading event)" ∧
    authenticate (mkEvstream (some 30000)) (some .undef) =
      .ok (mkEvstream (some 30000), .rFalse) :=
  ⟨rfl, rfl⟩

/-- Claim C7 (amended): a `false` verifier result clears the heartbeat,
sends one error event, ends the connection and returns `false`; a
structured-message result is sent verbatim and returns `true`
(authenticated); `true` returns `true` with no writes; an `undefined`
result returns `false` with no error event and no close; a `null`
result throws a `TypeError`; and only the no-authentication-configured
case is a true pass-through, returning `undefined` with no side
effects. -/
theorem authenticate_behavior (conn : EvstreamConn) (m : EvMessage) :
    authenticate conn none = .ok (conn, .rUndef) ∧
    authenticate conn (some (.bool true)) = .ok (conn, .rTrue) ∧
    authenticate conn (some (.bool false)) =
      .ok ({ conn with
              heartbeatActive := false,
              writes := conn.writes ++ [message authFailedMsg],
              ended := true }, .rFalse) ∧
    authenticate conn (some (.msgObj m)) =
      .ok ({ conn with writes := conn.writes ++ [message m] }, .rTrue) ∧
    authenticate conn (some .undef) = .ok (conn, .rFalse) ∧
    authenticate conn (some .nullObj) =
      .error "TypeError: Cannot read properties of null (reading event)" := by
  refine ⟨rfl, rfl, ?_, rfl, rfl, rfl⟩
  unfold authenticate clearHeartbeat writeMessage
  by_cases hb : conn.heartbeatActive
  · rw [if_pos hb]
    simp [hb]
  · rw [if_neg hb]
    simp at hb
    simp [hb]

/-! ## Reactive state (state.ts, `EvState`)

The value type is an arbitrary type with decidable equality, embedding
`lodash.isEqual`'s deep structural comparison.  The calls `set` makes —
`manager.send(channel, {event, data})` and
`adapter.publish(channel, {key: value})` — are returned as explicit
records rather than performed, so the claim can count them. -/

/-- One `manager.send` call made by `EvState`: channel name, the
message's `event`, and its single-field `data` object `{key: value}`. -/
structure StateBroadcast (α : Type) where
  channel : String
  event : String
  dataKey : String
  dataVal : α
deriving DecidableEq, Repr

/-- One `adapter.publish` call made by `EvState`: channel name and the
single-field payload `{key: value}`. -/
structure StatePublish (α : Type) where
  channel : String
  key : String
  val : α
deriving DecidableEq, Repr

/-- The state of one `EvState` instance: current value, broadcast
channel, wrap key (`#key`), and whether an adapter is bound. -/
structure EvState (α : Type) where
  value : α
  channel : String
  key : String
  hasAdapter : Bool
deriving DecidableEq, Repr

/-- Embeds the `EvState` constructor: `this.#key = key || 'value'`. -/
def mkEvState {α : Type} (channel : String) (initialValue : α)
    (key : Option String) (hasAdapter : Bool) : EvState α :=
  { value := initialValue, channel := channel,
    key := strOrDefault key "value", hasAdapter := hasAdapter }

/-- Embeds `EvState.set`: apply the callback to the current value; if
the result is deeply equal to the current value do nothing; otherwise
store it, broadcast `{event: channel, data: {key: newValue}}` on the
channel through the manager, and — when an adapter is bound — publish
`{key: newValue}` to the adapter's channel. -/
def EvState.set {α : Type} [DecidableEq α] (s : EvState α)
    (callback : α → α) :
    EvState α × List (StateBroadcast α) × List (StatePublish α) :=
  let newValue := callback s.value
  if newValue = s.value then (s, [], [])
  else
    ({ s with value := newValue },
      [⟨s.channel, s.channel, s.key, newValue⟩],
      if s.hasAdapter then [⟨s.channel, s.key, newValue⟩] else [])

/-- Claim C4: `set` with a transform returning a deeply-equal value
leaves the stored value untouched and performs zero broadcasts and zero
adapter publishes; a transform returning a different value replaces the
stored value, performs exactly one broadcast of
`{event: channel, data: {wrapKey: newValue}}` on the state's channel,
and — when an adapter is bound — exactly one adapter publish of
`{wrapKey: newValue}`. -/
theorem state_set_change_detection {α : Type} [DecidableEq α]
    (s : EvState α) (f : α → α) :
    (f s.value = s.value → EvState.set s f = (s, [], [])) ∧
    (f s.value ≠ s.value →
      (EvState.set s f).1 = { s with value := f s.value } ∧
      (EvState.set s f).2.1 = [⟨s.channel, s.channel, s.key, f s.value⟩] ∧
      (EvState.set s f).2.2 =
        (if s.hasAdapter then [⟨s.channel, s.key, f s.value⟩] else [])) := by
  constructor
  · intro h
    unfold EvState.set
    rw [if_pos h]
  · intro h
    unfold EvState.set
    rw [if_neg h]
    exact ⟨rfl, rfl, rfl⟩

/-- Claim C4 (witness): an adapter-bound counter at `0`; the identity
transform produces nothing, the increment produces exactly one
broadcast and one publish. -/
theorem state_set_change_detection_witness :
    ((fun v => v + 1) (mkEvState "counter" (0 : Nat) none true).value ≠
      (mkEvState "counter" (0 : Nat) none true).value) ∧
    ((EvState.set (mkEvState "counter" (0 : Nat) none true)
        (fun v => v + 1)).1 =
      { mkEvState "counter" (0 : Nat) none true with
          value := (fun v => v + 1)
            (mkEvState "counter" (0 : Nat) none true).value } ∧
    (EvState.set (mkEvState "counter" (0 : Nat) none true)
        (fun v => v + 1)).2.1 =
      [⟨"counter", "counter", "value",
        (fun v => v + 1) (mkEvState "counter" (0 : Nat) none true).value⟩] ∧
    (EvState.set (mkEvState "counter" (0 : Nat) none true)
        (fun v => v + 1)).2.2 =
      (if (mkEvState "counter" (0 : Nat) none true).hasAdapter then
        [⟨"counter", "value",
          (fun v => v + 1) (mkEvState "counter" (0 : Nat) none true).value⟩]
      else [])) :=
  ⟨by decide,
    (state_set_change_detection (mkEvState "counter" (0 : Nat) none true)
      (fun v => v + 1)).2 (by decide)⟩

/-! ## The state manager (extensions/state-manager.ts, `EvStateManager`) -/

/-- A lifecycle event published on the Pub/Sub channel by the state
manager: `{type: 'create', channel, initialValue}` or
`{type: 'remove', channel}`. -/
inductive LifecycleMsg (α : Type) where
  | create (channel : String) (initialValue : α)
  | remove (channel : String)
deriving DecidableEq, Repr

/-- The state of an `EvStateManager`: its `#states` registry and whether
an adapter / lifecycle Pub/Sub is configured. -/
structure StateManager (α : Type) where
  states : List (String × EvState α)
  hasAdapter : Bool
  hasPubsub : Bool
deriving DecidableEq, Repr

/-- Embeds `createLocalState`: constructs an `EvState` bound to the
manager and optional adapter (the `key` option is not passed, so the
wrap key defaults to `'value'`) and stores it under the channel. -/
def createLocalState {α : Type} (sm : StateManager α) (channel : String)
    (initialValue : α) : StateManager α × EvState α :=
  let st : EvState α := mkEvState channel initialValue none sm.hasAdapter
  ({ sm with states := setA sm.states channel st }, st)

/-- Embeds `removeLocalState`: deletes the entry. -/
def removeLocalState {α : Type} (sm : StateManager α) (channel : String) :
    StateManager α :=
  { sm with states := eraseA sm.states channel }

/-- Embeds `EvStateManager.createState`: an existing key returns the
cached instance with no Pub/Sub traffic; a fresh key creates and stores
a state and — when a Pub/Sub is configured — publishes one
`{type: 'create'}` lifecycle event.  Returned alongside the state is the
list of lifecycle events the call sent. -/
def createState {α : Type} (sm : StateManager α) (key : String)
    (initialValue : α) :
    StateManager α × EvState α × List (LifecycleMsg α) :=
  match getA sm.states key with
  | some st => (sm, st, [])
  | none =>
      let r := createLocalState sm key initialValue
      (r.1, r.2,
        if sm.hasPubsub then [.create key initialValue] else [])

/-- Embeds `EvStateManager.removeState`. -/
def removeState {α : Type} (sm : StateManager α) (key : String) :
    StateManager α × List (LifecycleMsg α) :=
  (removeLocalState sm key, if sm.hasPubsub then [.remove key] else [])

/-- Embeds the remote lifecycle handler `pubSubCallback`: a remote
`create` materializes the state only if the key is absent; a remote
`remove` deletes unconditionally; neither republishes. -/
def pubSubCallback {α : Type} (sm : StateManager α)
    (msg : LifecycleMsg α) : StateManager α :=
  match msg with
  | .create channel v =>
      if (getA sm.states channel).isSome then sm
      else (createLocalState sm channel v).1
  | .remove channel => removeLocalState sm channel

/-- Claim C8: calling `createState` twice with the same key (and any
two initial values) returns the identical state instance both times,
keeps the first value stored, publishes exactly one `{type: 'create'}`
lifecycle event in total (none on the second call), and the second call
changes nothing. -/
theorem createState_idempotent {α : Type} (sm : StateManager α)
    (key : String) (v1 v2 : α) (hfresh : getA sm.states key = none)
    (hps : sm.hasPubsub = true) :
    (createState (createState sm key v1).1 key v2).2.1 =
      (createState sm key v1).2.1 ∧
    (createState sm key v1).2.1.value = v1 ∧
    getA (createState (createState sm key v1).1 key v2).1.states key =
      some (createState sm key v1).2.1 ∧
    (createState sm key v1).2.2 = [.create key v1] ∧
    (createState (createState sm key v1).1 key v2).2.2 = [] ∧
    (createState (createState sm key v1).1 key v2).1 =
      (createState sm key v1).1 := by
  have hmiss : ∀ (t : StateManager α) (k : String) (v : α),
      getA t.states k = none →
      createState t k v = ((createLocalState t k v).1,
        (createLocalState t k v).2,
        if t.hasPubsub then [.create k v] else []) := by
    intro t k v h
    unfold createState
    rw [h]
  have hhit : ∀ (t : StateManager α) (k : String) (v : α)
      (st : EvState α), getA t.states k = some st →
      createState t k v = (t, st, []) := by
    intro t k v st h
    unfold createState
    rw [h]
  have h1 := hmiss sm key v1 hfresh
  have hget : getA (createState sm key v1).1.states key =
      some (createState sm key v1).2.1 := by
    rw [h1]
    unfold createLocalState
    exact getA_setA_self _ _ _
  have h2 : createState (createState sm key v1).1 key v2 =
      ((createState sm key v1).1, (createState sm key v1).2.1, []) :=
    hhit _ _ _ _ hget
  refine ⟨?_, ?_, ?_, ?_, ?_, ?_⟩
  · rw [h2]
  · rw [h1]
    rfl
  · rw [h2]
    exact hget
  · rw [h1, hps]
    rfl
  · rw [h2]
  · rw [h2]

/-- Claim C8 (witness): a fresh manager with Pub/Sub configured; key
`"user-count"`, first value `0`, second value `7`. -/
theorem createState_idempotent_witness :
    (getA (StateManager.mk ([] : List (String × EvState Nat)) true
        true).states "user-count" = none ∧
      (StateManager.mk ([] : List (String × EvState Nat)) true
        true).hasPubsub = true) ∧
    ((createState (createState (StateManager.mk
        ([] : List (String × EvState Nat)) true true) "user-count" 0).1
        "user-count" 7).2.1 =
      (createState (StateManager.mk ([] : List (String × EvState Nat))
        true true) "user-count" 0).2.1 ∧
    (createState (StateManager.mk ([] : List (String × EvState Nat))
        true true) "user-count" 0).2.1.value = 0 ∧
    getA (createState (createState (StateManager.mk
        ([] : List (String × EvState Nat)) true true) "user-count" 0).1
        "user-count" 7).1.states "user-count" =
      some (createState (StateManager.mk
        ([] : List (String × EvState Nat)) true true) "user-count"
        0).2.1 ∧
    (createState (StateManager.mk ([] : List (String × EvState Nat))
        true true) "user-count" 0).2.2 = [.create "user-count" 0] ∧
    (createState (createState (StateManager.mk
        ([] : List (String × EvState Nat)) true true) "user-count" 0).1
        "user-count" 7).2.2 = [] ∧
    (createState (createState (StateManager.mk
        ([] : List (String × EvState Nat)) true true) "user-count" 0).1
        "user-count" 7).1 =
      (createState (StateManager.mk ([] : List (String × EvState Nat))
        true true) "user-count" 0).1) :=
  ⟨⟨by decide, by decide⟩,
    createState_idempotent
      (StateManager.mk ([] : List (String × EvState Nat)) true true)
      "user-count" 0 7 (by decide) (by decide)⟩

/-! ## The Redis Pub/Sub bridge (adapters/pub-sub.ts, `EvRedisPubSub`) -/

/-- A raw frame as it comes off the transport, after `JSON.parse`:
either unparseable, or an envelope `{uid?, msg}` (the `uid` is absent
when the sender is not an `EvRedisPubSub` instance). -/
inductive PSRaw (α : Type) where
  | malformed
  | envelope (uid : Option String) (msg : α)
deriving DecidableEq, Repr

/-- Embeds `EvRedisPubSub.send`: wraps the payload as
`{uid: instanceId, msg}`. -/
def pubSubSend {α : Type} (instanceId : String) (msg : α) : PSRaw α :=
  .envelope (some instanceId) msg

/-- Embeds the receive path installed by `EvRedisPubSub.init`: a frame
that fails to parse is dropped; a parsed envelope is handed to the
registered handler only when its `uid` differs from this instance's own
id (`data?.uid !== this.#instanceId` — an absent `uid` is `undefined`,
which also differs).  The result is what reaches the handler, if
anything. -/
def pubSubReceive {α : Type} (instanceId : String) :
    PSRaw α → Option α
  | .malformed => none
  | .envelope uid msg =>
      if uid = some instanceId then none else some msg

/-- Claim C5: a frame whose embedded instance id equals the receiving
bridge's own id is discarded — in particular every self-published frame
(loopback) — while a frame with a differing or absent id is delivered
to the handler; malformed frames are dropped. -/
theorem bridge_self_loopback {α : Type} (own : String) (m : α)
    (uid : Option String) (h : uid ≠ some own) :
    pubSubReceive own (pubSubSend own m) = none ∧
    pubSubReceive own (PSRaw.envelope (some own) m) = none ∧
    pubSubReceive own (PSRaw.envelope uid m) = some m ∧
    pubSubReceive own (PSRaw.malformed : PSRaw α) = none := by
  refine ⟨?_, ?_, ?_, rfl⟩
  · show (if (some own : Option String) = some own then (none : Option α)
      else some m) = none
    rw [if_pos rfl]
  · show (if (some own : Option String) = some own then (none : Option α)
      else some m) = none
    rw [if_pos rfl]
  · show (if uid = some own then (none : Option α) else some m) = some m
    rw [if_neg h]

/-- Claim C5 (witness): an instance `"inst-a"` discards its own frames
and delivers a frame from `"inst-b"` and one with no uid. -/
theorem bridge_self_loopback_witness :
    ((some "inst-b" : Option String) ≠ some "inst-a") ∧
    (pubSubReceive "inst-a" (pubSubSend "inst-a" (5 : Nat)) = none ∧
      pubSubReceive "inst-a" (PSRaw.envelope (some "inst-a") (5 : Nat)) =
        none ∧
      pubSubReceive "inst-a" (PSRaw.envelope (some "inst-b") (5 : Nat)) =
        some 5 ∧
      pubSubReceive "inst-a" (PSRaw.malformed : PSRaw Nat) = none) :=
  ⟨by decide, bridge_self_loopback "inst-a" 5 (some "inst-b") (by decide)⟩

end Evstream
